import Mathlib

/-!
# Verification of `src/util/primitives.js`

A shallow embedding of the `Ray`, `Frustum` and `Aabb` classes of
`src/util/primitives.js`, together with the gl-matrix vector/matrix
operations they call (`vec3.dot`, `vec3.cross`, `vec3.normalize`,
`vec4.transformMat4`, ...).

The embedding is generic over a linear ordered field `K` so that every
definition is executable (witnesses are evaluated at `K := ℚ`), while
the exact-real-arithmetic claims are stated at `K := ℝ`.  The square
root (`Math.sqrt`, used by `vec3.length` / `vec3.normalize`) is passed
as an explicit function parameter `sqrt : K → K`; real-arithmetic
theorems instantiate it with `Real.sqrt`.
-/

set_option maxHeartbeats 1000000

section Primitives

variable {K : Type*} [LinearOrderedField K]

/-- A 3-component vector (a gl-matrix `vec3`). -/
structure V3 (K : Type*) where
  x : K
  y : K
  z : K
deriving DecidableEq

/-- A 4-component vector (a gl-matrix `vec4`); also used for planes
`(nx, ny, nz, d)` stored as `n.concat(d)`. -/
structure V4 (K : Type*) where
  x : K
  y : K
  z : K
  w : K
deriving DecidableEq

/-- A 4x4 matrix in gl-matrix's column-major flat layout `m[0..15]`
(entry `m[c*4+r]` is row `r` of column `c`). -/
structure Mat4 (K : Type*) where
  m0 : K
  m1 : K
  m2 : K
  m3 : K
  m4 : K
  m5 : K
  m6 : K
  m7 : K
  m8 : K
  m9 : K
  m10 : K
  m11 : K
  m12 : K
  m13 : K
  m14 : K
  m15 : K
deriving DecidableEq

/-- The first three components of a `vec4`; gl-matrix `vec3` functions
applied to a 4-element array read exactly these. -/
def V4.xyz (v : V4 K) : V3 K := ⟨v.x, v.y, v.z⟩

/-- JavaScript `Math.abs` (on non-NaN inputs). -/
def jsAbs (x : K) : K := if x < 0 then -x else x

/-- JavaScript `Math.min` of two numbers (on non-NaN inputs). -/
def jsMin (a b : K) : K := if a ≤ b then a else b

/-- JavaScript `Math.max` of two numbers (on non-NaN inputs). -/
def jsMax (a b : K) : K := if a ≤ b then b else a

/-- gl-matrix `vec3.dot`. -/
def vec3dot (a b : V3 K) : K := a.x * b.x + a.y * b.y + a.z * b.z

/-- gl-matrix `vec3.sub`. -/
def vec3sub (a b : V3 K) : V3 K := ⟨a.x - b.x, a.y - b.y, a.z - b.z⟩

/-- gl-matrix `vec3.add`. -/
def vec3add (a b : V3 K) : V3 K := ⟨a.x + b.x, a.y + b.y, a.z + b.z⟩

/-- gl-matrix `vec3.scale` (vector `a` times scalar `s`). -/
def vec3scale (a : V3 K) (s : K) : V3 K := ⟨a.x * s, a.y * s, a.z * s⟩

/-- gl-matrix `vec3.scaleAndAdd(out, a, b, s) = a + b*s`. -/
def vec3scaleAndAdd (a b : V3 K) (s : K) : V3 K :=
  ⟨a.x + b.x * s, a.y + b.y * s, a.z + b.z * s⟩

/-- gl-matrix `vec3.cross`. -/
def vec3cross (a b : V3 K) : V3 K :=
  ⟨a.y * b.z - a.z * b.y, a.z * b.x - a.x * b.z, a.x * b.y - a.y * b.x⟩

/-- gl-matrix `vec3.squaredLength`. -/
def vec3squaredLength (a : V3 K) : K := a.x * a.x + a.y * a.y + a.z * a.z

/-- gl-matrix `vec3.length`: the square root of the sum of squared
components (`Math.hypot(x, y, z)` in exact arithmetic). -/
def vec3length (sqrt : K → K) (a : V3 K) : K :=
  sqrt (a.x * a.x + a.y * a.y + a.z * a.z)

/-- gl-matrix `glMatrix.EPSILON = 0.000001`. -/
def glEPSILON : K := 1 / 1000000

/-- gl-matrix `vec3.equals`: componentwise approximate equality,
`|a[i]-b[i]| <= EPSILON * max(1, |a[i]|, |b[i]|)`. -/
def vec3equals (a b : V3 K) : Bool :=
  decide (jsAbs (a.x - b.x) ≤ glEPSILON * jsMax 1 (jsMax (jsAbs a.x) (jsAbs b.x))) &&
  decide (jsAbs (a.y - b.y) ≤ glEPSILON * jsMax 1 (jsMax (jsAbs a.y) (jsAbs b.y))) &&
  decide (jsAbs (a.z - b.z) ≤ glEPSILON * jsMax 1 (jsMax (jsAbs a.z) (jsAbs b.z)))

/-- gl-matrix `vec3.normalize`: scale by `1/sqrt(len)` when the squared
length is positive, otherwise multiply by the zero squared length. -/
def vec3normalize (sqrt : K → K) (a : V3 K) : V3 K :=
  let len := a.x * a.x + a.y * a.y + a.z * a.z
  let l := if 0 < len then 1 / sqrt len else len
  ⟨a.x * l, a.y * l, a.z * l⟩

/-- gl-matrix `vec4.transformMat4` (column-major matrix times vector). -/
def vec4transformMat4 (v : V4 K) (m : Mat4 K) : V4 K :=
  ⟨m.m0 * v.x + m.m4 * v.y + m.m8 * v.z + m.m12 * v.w,
   m.m1 * v.x + m.m5 * v.y + m.m9 * v.z + m.m13 * v.w,
   m.m2 * v.x + m.m6 * v.y + m.m10 * v.z + m.m14 * v.w,
   m.m3 * v.x + m.m7 * v.y + m.m11 * v.z + m.m15 * v.w⟩

/-- gl-matrix `vec4.mul` (componentwise product). -/
def vec4mul (a b : V4 K) : V4 K :=
  ⟨a.x * b.x, a.y * b.y, a.z * b.z, a.w * b.w⟩

/-- JavaScript `Number.MAX_VALUE = (2^53 - 1) * 2^971`, the seed of the
projected-extent min/max loop in `Aabb.intersects`. -/
def jsMaxValue : K := ((2 : K) ^ 53 - 1) * (2 : K) ^ 971

/-- The `Ray` class: origin `pos` and direction `dir`. -/
structure Ray (K : Type*) where
  pos : V3 K
  dir : V3 K
deriving DecidableEq

/-- `Ray.intersectsPlane(pt, normal, out)`.  The result models the pair
(returned boolean, contents of the caller's `out` buffer after the
call): on the parallel-ray early return the buffer keeps its previous
contents `out`. -/
def Ray.intersectsPlane (ray : Ray K) (pt normal out : V3 K) : Bool × V3 K :=
  let D := vec3dot normal ray.dir
  if jsAbs D < 1 / 1000000 then (false, out)
  else
    let t := vec3dot (vec3sub pt ray.pos) normal / D
    let intersection := vec3scaleAndAdd ray.pos ray.dir t
    (true, intersection)

/-- `Ray.closestPointOnSphere(center, r, out)`.  The result models the
pair (returned boolean, contents of the caller's `out` buffer after the
call).  In the degenerate branch the JavaScript source executes
`out = [0.0, 0.0, 0.0]`, which rebinds the local parameter variable and
leaves the caller's buffer untouched, so the buffer keeps its previous
contents `out` there. -/
def Ray.closestPointOnSphere (ray : Ray K) (sqrt : K → K) (center : V3 K)
    (r : K) (out : V3 K) : Bool × V3 K :=
  if vec3equals ray.pos center || decide (r = 0) then
    (false, out)
  else
    let centerToP := vec3sub ray.pos center
    let a := vec3dot ray.dir ray.dir
    let b := 2 * vec3dot centerToP ray.dir
    let c := vec3dot centerToP centerToP - r * r
    let d := b * b - 4 * a * c
    if d < 0 then
      let centerToP1 := vec3scale centerToP (-1)
      let t := jsMax (vec3dot centerToP1 ray.dir) 0
      let pointOnRay := vec3add ray.pos (vec3scale ray.dir t)
      let pointToGlobe := vec3sub center pointOnRay
      let pointToGlobeLength := vec3length sqrt pointToGlobe
      let pointToGlobe1 := vec3scale pointToGlobe (1 - r / pointToGlobeLength)
      (false, vec3sub (vec3add pointOnRay pointToGlobe1) center)
    else
      let t := (-b - sqrt d) / (2 * a)
      if t < 0 then
        (false, vec3scale centerToP (r / vec3length sqrt centerToP))
      else
        (true, vec3sub (vec3add ray.pos (vec3scale ray.dir t)) center)

/-- The `Frustum` class: 8 corner points and 6 planes, both stored as
4-component rows. -/
structure Frustum (K : Type*) where
  points : List (V4 K)
  planes : List (V4 K)
deriving DecidableEq

/-- `Frustum.fromInvProjectionMatrix(invProj, worldSize, zoom, zInMeters)`.
`Math.pow(2, zoom)` is embedded for integer `zoom` as `(2:K)^zoom`.
List indexing `frustumCoords[p[i]]` (always in bounds, the list has 8
elements) is embedded with `getD` and a dummy default. -/
def Frustum.fromInvProjectionMatrix (sqrt : K → K) (invProj : Mat4 K)
    (worldSize : K) (zoom : ℤ) (zInMeters : Bool) : Frustum K :=
  let clipSpaceCorners : List (V4 K) :=
    [⟨-1, 1, -1, 1⟩,
     ⟨1, 1, -1, 1⟩,
     ⟨1, -1, -1, 1⟩,
     ⟨-1, -1, -1, 1⟩,
     ⟨-1, 1, 1, 1⟩,
     ⟨1, 1, 1, 1⟩,
     ⟨1, -1, 1, 1⟩,
     ⟨-1, -1, 1, 1⟩]
  let scale : K := (2 : K) ^ zoom
  let frustumCoords := clipSpaceCorners.map (fun v =>
    let s := vec4transformMat4 v invProj
    let k := 1 / s.w / worldSize * scale
    vec4mul s ⟨k, k, if zInMeters then 1 / s.w else k, k⟩)
  let frustumPlanePointIndices : List (ℕ × ℕ × ℕ) :=
    [(0, 1, 2), (6, 5, 4), (0, 3, 7), (2, 1, 5), (3, 2, 6), (0, 4, 5)]
  let frustumPlanes := frustumPlanePointIndices.map (fun p =>
    let a := vec3sub (frustumCoords.getD p.1 ⟨0, 0, 0, 0⟩).xyz
                     (frustumCoords.getD p.2.1 ⟨0, 0, 0, 0⟩).xyz
    let b := vec3sub (frustumCoords.getD p.2.2 ⟨0, 0, 0, 0⟩).xyz
                     (frustumCoords.getD p.2.1 ⟨0, 0, 0, 0⟩).xyz
    let n := vec3normalize sqrt (vec3cross a b)
    let d := -(vec3dot n (frustumCoords.getD p.2.1 ⟨0, 0, 0, 0⟩).xyz)
    (⟨n.x, n.y, n.z, d⟩ : V4 K))
  ⟨frustumCoords, frustumPlanes⟩

/-- The `Aabb` class: `min`, `max` and the derived `center`. -/
structure Aabb (K : Type*) where
  min : V3 K
  max : V3 K
  center : V3 K
deriving DecidableEq

/-- The `Aabb` constructor: `center = scale(add(min, max), 0.5)`. -/
def aabbMk (mn mx : V3 K) : Aabb K :=
  ⟨mn, mx, vec3scale (vec3add mn mx) (1 / 2)⟩

/-- `Aabb.quadrant(index)`: 2D (x, y) subdivision; the split loop runs
over axes 0 and 1 with `split = [index % 2 === 0, index < 2]`, `z` is
cloned from the parent and `qMax[2]` is reset to `max[2]`. -/
def Aabb.quadrant (box : Aabb K) (index : ℕ) : Aabb K :=
  aabbMk
    ⟨if index % 2 = 0 then box.min.x else box.center.x,
     if index < 2 then box.min.y else box.center.y,
     box.min.z⟩
    ⟨if index % 2 = 0 then box.center.x else box.max.x,
     if index < 2 then box.center.y else box.max.y,
     box.max.z⟩

/-- `Aabb.getCorners()`: the 8 corners in source order. -/
def Aabb.getCorners (box : Aabb K) : List (V3 K) :=
  [⟨box.min.x, box.min.y, box.min.z⟩,
   ⟨box.max.x, box.min.y, box.min.z⟩,
   ⟨box.max.x, box.max.y, box.min.z⟩,
   ⟨box.min.x, box.max.y, box.min.z⟩,
   ⟨box.min.x, box.min.y, box.max.z⟩,
   ⟨box.max.x, box.min.y, box.max.z⟩,
   ⟨box.max.x, box.max.y, box.max.z⟩,
   ⟨box.min.x, box.max.y, box.max.z⟩]

/-- Coordinate access `v[axis]` for `axis < 3` on a `vec3`. -/
def V3.nth (v : V3 K) : Fin 3 → K
  | 0 => v.x
  | 1 => v.y
  | 2 => v.z

/-- Coordinate access `v[axis]` for `axis < 3` on a `vec4`
(`Aabb.intersects` reads only the first three components of a frustum
point). -/
def V4.nth (v : V4 K) : Fin 3 → K
  | 0 => v.x
  | 1 => v.y
  | 2 => v.z

/-- The inner loop of the plane stage of `Aabb.intersects`:
`pointsInside += vec3.dot(plane, aabbPoints[i]) + plane[3] >= 0`. -/
def planeCount (corners : List (V3 K)) (plane : V4 K) : ℕ :=
  corners.countP (fun q => decide (0 ≤ vec3dot plane.xyz q + plane.w))

/-- The plane stage of `Aabb.intersects`: `none` models the early
`return 0` on a plane with no corner inside, `some fullyInside` models
falling through the loop with the accumulated `fullyInside` flag. -/
def planeLoop (corners : List (V3 K)) : List (V4 K) → Bool → Option Bool
  | [], fullyInside => some fullyInside
  | pl :: rest, fullyInside =>
    if planeCount corners pl = 0 then none
    else planeLoop corners rest
      (fullyInside && decide (planeCount corners pl = corners.length))

/-- The per-axis min/max loop of `Aabb.intersects`: fold the projected
frustum-point coordinates, seeded with
`(Number.MAX_VALUE, -Number.MAX_VALUE)`. -/
def axisProj (box : Aabb K) (pts : List (V4 K)) (axis : Fin 3) : K × K :=
  pts.foldl (fun acc p =>
    let projectedPoint := p.nth axis - box.min.nth axis
    (jsMin acc.1 projectedPoint, jsMax acc.2 projectedPoint))
    (jsMaxValue, -jsMaxValue)

/-- The per-axis early-return test of `Aabb.intersects`:
`projMax < 0 || projMin > this.max[axis] - this.min[axis]`. -/
def axisSeparated (box : Aabb K) (pts : List (V4 K)) (axis : Fin 3) : Bool :=
  let pr := axisProj box pts axis
  decide (pr.2 < 0 ∨ box.max.nth axis - box.min.nth axis < pr.1)

/-- `Aabb.intersects(frustum)`: the plane stage followed, when it
decides neither 0 nor 2, by the three world-axis tests. -/
def Aabb.intersects (box : Aabb K) (frustum : Frustum K) : ℕ :=
  match planeLoop box.getCorners frustum.planes true with
  | none => 0
  | some true => 2
  | some false =>
    if axisSeparated box frustum.points 0 then 0
    else if axisSeparated box frustum.points 1 then 0
    else if axisSeparated box frustum.points 2 then 0
    else 1

/-- Spec-side corner for `Frustum.fromInvProjectionMatrix`, following the
claim's words: transform the clip-space corner `c` (with `c.w = 1`) by
`invProj`, multiply x and y by `k = (1/w) / worldSize * 2^zoom`, and z by
`1/w` when `zInMeters` is set and by `k` otherwise. -/
def specCorner (invProj : Mat4 K) (worldSize : K) (zoom : ℤ) (zInMeters : Bool)
    (c : V4 K) : V3 K :=
  let s := vec4transformMat4 c invProj
  let k := 1 / s.w / worldSize * (2 : K) ^ zoom
  ⟨s.x * k, s.y * k, s.z * (if zInMeters then 1 / s.w else k)⟩

/-- Spec-side list of the 8 frustum corner points, in the fixed clip-space
cube order `(±1, ±1, ±1, 1)` with the near face (z = -1) first. -/
def specFrustumPoints (invProj : Mat4 K) (worldSize : K) (zoom : ℤ)
    (zInMeters : Bool) : List (V3 K) :=
  [specCorner invProj worldSize zoom zInMeters ⟨-1, 1, -1, 1⟩,
   specCorner invProj worldSize zoom zInMeters ⟨1, 1, -1, 1⟩,
   specCorner invProj worldSize zoom zInMeters ⟨1, -1, -1, 1⟩,
   specCorner invProj worldSize zoom zInMeters ⟨-1, -1, -1, 1⟩,
   specCorner invProj worldSize zoom zInMeters ⟨-1, 1, 1, 1⟩,
   specCorner invProj worldSize zoom zInMeters ⟨1, 1, 1, 1⟩,
   specCorner invProj worldSize zoom zInMeters ⟨1, -1, 1, 1⟩,
   specCorner invProj worldSize zoom zInMeters ⟨-1, -1, 1, 1⟩]

/-- Spec-side plane from a corner triple `(p0, p1, p2)`:
`n = normalize(cross(p0 - p1, p2 - p1))` and `d = -dot(n, p1)`. -/
def specPlane (sqrt : K → K) (p0 p1 p2 : V3 K) : V4 K :=
  let n := vec3normalize sqrt (vec3cross (vec3sub p0 p1) (vec3sub p2 p1))
  ⟨n.x, n.y, n.z, -(vec3dot n p1)⟩

/-- Spec-side list of the 6 frustum planes, built from the corner index
triples near{0,1,2}, far{6,5,4}, left{0,3,7}, right{2,1,5},
bottom{3,2,6}, top{0,4,5}. -/
def specFrustumPlanes (sqrt : K → K) (invProj : Mat4 K) (worldSize : K)
    (zoom : ℤ) (zInMeters : Bool) : List (V4 K) :=
  let q0 := specCorner invProj worldSize zoom zInMeters ⟨-1, 1, -1, 1⟩
  let q1 := specCorner invProj worldSize zoom zInMeters ⟨1, 1, -1, 1⟩
  let q2 := specCorner invProj worldSize zoom zInMeters ⟨1, -1, -1, 1⟩
  let q3 := specCorner invProj worldSize zoom zInMeters ⟨-1, -1, -1, 1⟩
  let q4 := specCorner invProj worldSize zoom zInMeters ⟨-1, 1, 1, 1⟩
  let q5 := specCorner invProj worldSize zoom zInMeters ⟨1, 1, 1, 1⟩
  let q6 := specCorner invProj worldSize zoom zInMeters ⟨1, -1, 1, 1⟩
  let q7 := specCorner invProj worldSize zoom zInMeters ⟨-1, -1, 1, 1⟩
  [specPlane sqrt q0 q1 q2,
   specPlane sqrt q6 q5 q4,
   specPlane sqrt q0 q3 q7,
   specPlane sqrt q2 q1 q5,
   specPlane sqrt q3 q2 q6,
   specPlane sqrt q0 q4 q5]

/-- Spec-side separation test on a world axis, following the claim's
words: the interval `[projMin, projMax]` of the projected frustum-corner
coordinates (each minus the box's min on that axis) does not overlap
`[0, max - min]` on that axis.  For a list of coordinates the interval
misses `[0, span]` exactly when every coordinate is below 0 or every
coordinate is above the span, which is how it is phrased here. -/
def specAxisSeparated (box : Aabb K) (pts : List (V4 K)) (axis : Fin 3) : Prop :=
  (∀ p ∈ pts, p.nth axis - box.min.nth axis < 0) ∨
  (∀ p ∈ pts, box.max.nth axis - box.min.nth axis < p.nth axis - box.min.nth axis)

instance (box : Aabb K) (pts : List (V4 K)) (axis : Fin 3) :
    Decidable (specAxisSeparated box pts axis) := by
  unfold specAxisSeparated
  infer_instance

/-- Membership of a point `(px, py)` in the (x, y) rectangle of a box,
used to state the quadrant partition property. -/
def memRectXY (box : Aabb K) (px py : K) : Prop :=
  box.min.x ≤ px ∧ px ≤ box.max.x ∧ box.min.y ≤ py ∧ py ≤ box.max.y

/-- The discriminant `d = b*b - 4*a*c` of the ray/sphere quadratic of
`closestPointOnSphere`, with `centerToP = pos - center`,
`a = dot(dir, dir)`, `b = 2*dot(centerToP, dir)` and
`c = dot(centerToP, centerToP) - r*r`. -/
def sphereDisc (ray : Ray K) (center : V3 K) (r : K) : K :=
  let centerToP := vec3sub ray.pos center
  let a := vec3dot ray.dir ray.dir
  let b := 2 * vec3dot centerToP ray.dir
  let c := vec3dot centerToP centerToP - r * r
  b * b - 4 * a * c

/-- The nearer root `t = (-b - sqrt(d)) / (2a)` of the ray/sphere
quadratic of `closestPointOnSphere`. -/
def sphereRoot (sqrt : K → K) (ray : Ray K) (center : V3 K) (r : K) : K :=
  let centerToP := vec3sub ray.pos center
  let a := vec3dot ray.dir ray.dir
  let b := 2 * vec3dot centerToP ray.dir
  (-b - sqrt (sphereDisc ray center r)) / (2 * a)

/-- The output of the negative-discriminant miss branch of
`closestPointOnSphere`, phrased as the claim phrases it:
`t = max(dot(-centerToP, dir), 0)`, `pointOnRay = pos + t*dir`,
`v = (center - pointOnRay)` scaled by `1 - r/|center - pointOnRay|`,
output `pointOnRay + v - center`. -/
def specMissOutput (sqrt : K → K) (ray : Ray K) (center : V3 K) (r : K) : V3 K :=
  let t := jsMax (vec3dot (vec3scale (vec3sub ray.pos center) (-1)) ray.dir) 0
  let pointOnRay := vec3add ray.pos (vec3scale ray.dir t)
  let v := vec3scale (vec3sub center pointOnRay)
    (1 - r / vec3length sqrt (vec3sub center pointOnRay))
  vec3sub (vec3add pointOnRay v) center

end Primitives

section Theorems

variable {K : Type*} [LinearOrderedField K]

/-- `Math.abs` agrees with the mathematical absolute value. -/
theorem jsAbs_eq_abs (x : K) : jsAbs x = |x| := by
  unfold jsAbs
  rcases lt_or_le x 0 with h | h
  · rw [if_pos h, abs_of_neg h]
  · rw [if_neg (not_lt.mpr h), abs_of_nonneg h]

/-- `Math.min` agrees with the mathematical minimum. -/
theorem jsMin_eq_min (a b : K) : jsMin a b = min a b := (min_def a b).symm

/-- `Math.max` agrees with the mathematical maximum. -/
theorem jsMax_eq_max (a b : K) : jsMax a b = max a b := (max_def a b).symm

/-- Claim C1 (code_bug evidence): in the degenerate branch
(`pos == center` or `r == 0`) the call returns false but the
caller-supplied `out` buffer is NOT overwritten with the zero vector —
the JavaScript statement `out = [0.0, 0.0, 0.0]` rebinds the local
parameter only.  Evaluated here at `pos = center = (0,0,0)`, `r = 1`,
buffer previously `(5,5,5)`, and at `pos = (1,0,0)`, `center = (0,0,0)`,
`r = 0`, buffer previously `(7,7,7)`. -/
theorem claim_C1_out_buffer_not_written :
    (Ray.closestPointOnSphere (⟨⟨0, 0, 0⟩, ⟨1, 0, 0⟩⟩ : Ray ℚ) (fun x => x)
        ⟨0, 0, 0⟩ 1 ⟨5, 5, 5⟩ = (false, ⟨5, 5, 5⟩) ∧
      (Ray.closestPointOnSphere (⟨⟨0, 0, 0⟩, ⟨1, 0, 0⟩⟩ : Ray ℚ) (fun x => x)
        ⟨0, 0, 0⟩ 1 ⟨5, 5, 5⟩).2 ≠ ⟨0, 0, 0⟩) ∧
    (Ray.closestPointOnSphere (⟨⟨1, 0, 0⟩, ⟨1, 0, 0⟩⟩ : Ray ℚ) (fun x => x)
        ⟨0, 0, 0⟩ 0 ⟨7, 7, 7⟩ = (false, ⟨7, 7, 7⟩) ∧
      (Ray.closestPointOnSphere (⟨⟨1, 0, 0⟩, ⟨1, 0, 0⟩⟩ : Ray ℚ) (fun x => x)
        ⟨0, 0, 0⟩ 0 ⟨7, 7, 7⟩).2 ≠ ⟨0, 0, 0⟩) :=
  of_decide_eq_true (by with_unfolding_all rfl)

/-- Claim C5: `intersectsPlane(point, normal, out)` returns false and
leaves `out` unchanged when `|dot(normal, dir)| < 1e-6`, and otherwise
returns true and writes `pos + t*dir` with
`t = dot(point - pos, normal) / dot(normal, dir)`, regardless of the
sign of `t`. -/
theorem claim_C5_intersectsPlane (ray : Ray K) (pt normal out : V3 K) :
    (|vec3dot normal ray.dir| < 1 / 1000000 →
      ray.intersectsPlane pt normal out = (false, out)) ∧
    (¬ |vec3dot normal ray.dir| < 1 / 1000000 →
      ray.intersectsPlane pt normal out =
        (true, vec3add ray.pos (vec3scale ray.dir
          (vec3dot (vec3sub pt ray.pos) normal / vec3dot normal ray.dir)))) := by
  constructor
  · intro h
    have h' : jsAbs (vec3dot normal ray.dir) < 1 / 1000000 := by
      rwa [jsAbs_eq_abs]
    simp only [Ray.intersectsPlane]
    rw [if_pos h']
  · intro h
    have h' : ¬ jsAbs (vec3dot normal ray.dir) < 1 / 1000000 := by
      rwa [jsAbs_eq_abs]
    simp only [Ray.intersectsPlane]
    rw [if_neg h']
    show (true, vec3scaleAndAdd ray.pos ray.dir _) = _
    simp only [vec3scaleAndAdd, vec3add, vec3scale]

/-- Witness for claim C5 at concrete inputs over `ℚ`: a ray parallel to
the plane (returns false, buffer kept) and a ray hitting the plane. -/
theorem claim_C5_intersectsPlane_witness :
    Ray.intersectsPlane (⟨⟨0, 0, 0⟩, ⟨1, 0, 0⟩⟩ : Ray ℚ) ⟨2, 0, 0⟩ ⟨0, 0, 1⟩ ⟨9, 9, 9⟩ =
      (false, ⟨9, 9, 9⟩) ∧
    Ray.intersectsPlane (⟨⟨0, 0, 0⟩, ⟨1, 0, 0⟩⟩ : Ray ℚ) ⟨2, 0, 0⟩ ⟨1, 0, 0⟩ ⟨9, 9, 9⟩ =
      (true, vec3add ⟨0, 0, 0⟩ (vec3scale ⟨1, 0, 0⟩
        (vec3dot (vec3sub ⟨2, 0, 0⟩ ⟨0, 0, 0⟩) ⟨1, 0, 0⟩ / vec3dot ⟨1, 0, 0⟩ ⟨1, 0, 0⟩))) :=
  ⟨(claim_C5_intersectsPlane ⟨⟨0, 0, 0⟩, ⟨1, 0, 0⟩⟩ ⟨2, 0, 0⟩ ⟨0, 0, 1⟩ ⟨9, 9, 9⟩).1
      (by norm_num [vec3dot]),
   (claim_C5_intersectsPlane ⟨⟨0, 0, 0⟩, ⟨1, 0, 0⟩⟩ ⟨2, 0, 0⟩ ⟨1, 0, 0⟩ ⟨9, 9, 9⟩).2
      (by norm_num [vec3dot])⟩

/-- Claim C4: `fromInvProjectionMatrix` produces exactly the 8 corner
points described by the claim (clip-space cube corners transformed by
`invProj`, x and y scaled by `k = (1/w)/worldSize * 2^zoom`, z scaled by
`1/w` when `zInMeters` and by `k` otherwise) and the 6 planes built from
the fixed index triples near{0,1,2}, far{6,5,4}, left{0,3,7},
right{2,1,5}, bottom{3,2,6}, top{0,4,5} as
`n = normalize(cross(corner[p0]-corner[p1], corner[p2]-corner[p1]))`,
`d = -dot(n, corner[p1])`. -/
theorem claim_C4_fromInvProjectionMatrix (sqrt : K → K) (invProj : Mat4 K)
    (worldSize : K) (zoom : ℤ) (zInMeters : Bool) :
    (Frustum.fromInvProjectionMatrix sqrt invProj worldSize zoom zInMeters).points.map
        V4.xyz = specFrustumPoints invProj worldSize zoom zInMeters ∧
    (Frustum.fromInvProjectionMatrix sqrt invProj worldSize zoom zInMeters).planes =
      specFrustumPlanes sqrt invProj worldSize zoom zInMeters :=
  ⟨rfl, rfl⟩

/-- Claim C8: for `index` in 0..3, `quadrant(index)` selects the low-x
half `[min.x, center.x]` when `index % 2 == 0` and the high-x half
otherwise, the low-y half when `index < 2` and the high-y half
otherwise, and keeps the parent's z-range. -/
theorem claim_C8_quadrant (box : Aabb K) (index : ℕ)
    (_hle : box.min.x ≤ box.max.x ∧ box.min.y ≤ box.max.y ∧ box.min.z ≤ box.max.z)
    (_hidx : index < 4) :
    ((index % 2 = 0 → (box.quadrant index).min.x = box.min.x ∧
        (box.quadrant index).max.x = box.center.x) ∧
      (index % 2 ≠ 0 → (box.quadrant index).min.x = box.center.x ∧
        (box.quadrant index).max.x = box.max.x)) ∧
    ((index < 2 → (box.quadrant index).min.y = box.min.y ∧
        (box.quadrant index).max.y = box.center.y) ∧
      (¬ index < 2 → (box.quadrant index).min.y = box.center.y ∧
        (box.quadrant index).max.y = box.max.y)) ∧
    ((box.quadrant index).min.z = box.min.z ∧
      (box.quadrant index).max.z = box.max.z) := by
  refine ⟨⟨?_, ?_⟩, ⟨?_, ?_⟩, ?_, ?_⟩ <;> intros <;>
    simp_all [Aabb.quadrant, aabbMk]

/-- Witness for claim C8 at a concrete box and index over `ℚ`. -/
theorem claim_C8_quadrant_witness :
    ((3 % 2 = 0 → ((aabbMk (⟨0, 0, 0⟩ : V3 ℚ) ⟨2, 2, 2⟩).quadrant 3).min.x = 0 ∧
        ((aabbMk (⟨0, 0, 0⟩ : V3 ℚ) ⟨2, 2, 2⟩).quadrant 3).max.x =
          (aabbMk (⟨0, 0, 0⟩ : V3 ℚ) ⟨2, 2, 2⟩).center.x) ∧
      (3 % 2 ≠ 0 → ((aabbMk (⟨0, 0, 0⟩ : V3 ℚ) ⟨2, 2, 2⟩).quadrant 3).min.x =
          (aabbMk (⟨0, 0, 0⟩ : V3 ℚ) ⟨2, 2, 2⟩).center.x ∧
        ((aabbMk (⟨0, 0, 0⟩ : V3 ℚ) ⟨2, 2, 2⟩).quadrant 3).max.x = 2)) ∧
    ((3 < 2 → ((aabbMk (⟨0, 0, 0⟩ : V3 ℚ) ⟨2, 2, 2⟩).quadrant 3).min.y = 0 ∧
        ((aabbMk (⟨0, 0, 0⟩ : V3 ℚ) ⟨2, 2, 2⟩).quadrant 3).max.y =
          (aabbMk (⟨0, 0, 0⟩ : V3 ℚ) ⟨2, 2, 2⟩).center.y) ∧
      (¬ 3 < 2 → ((aabbMk (⟨0, 0, 0⟩ : V3 ℚ) ⟨2, 2, 2⟩).quadrant 3).min.y =
          (aabbMk (⟨0, 0, 0⟩ : V3 ℚ) ⟨2, 2, 2⟩).center.y ∧
        ((aabbMk (⟨0, 0, 0⟩ : V3 ℚ) ⟨2, 2, 2⟩).quadrant 3).max.y = 2)) ∧
    (((aabbMk (⟨0, 0, 0⟩ : V3 ℚ) ⟨2, 2, 2⟩).quadrant 3).min.z = 0 ∧
      ((aabbMk (⟨0, 0, 0⟩ : V3 ℚ) ⟨2, 2, 2⟩).quadrant 3).max.z = 2) :=
  claim_C8_quadrant (aabbMk ⟨0, 0, 0⟩ ⟨2, 2, 2⟩) 3 (by decide) (by decide)

/-- If some plane rejects every corner, the plane loop of
`Aabb.intersects` exits with `none` (the early `return 0`). -/
theorem planeLoop_eq_none (corners : List (V3 K)) (planes : List (V4 K)) (fi : Bool)
    (h : ∃ pl ∈ planes, planeCount corners pl = 0) :
    planeLoop corners planes fi = none := by
  induction planes generalizing fi with
  | nil => simp at h
  | cons pl rest ih =>
    rcases h with ⟨pl', hmem, hcnt⟩
    rcases List.mem_cons.mp hmem with rfl | hmem'
    · simp [planeLoop, hcnt]
    · by_cases h0 : planeCount corners pl = 0
      · simp [planeLoop, h0]
      · simp only [planeLoop, if_neg h0]
        exact ih _ ⟨pl', hmem', hcnt⟩

/-- If no plane rejects all corners, the plane loop falls through and
returns the accumulator conjoined with the per-plane full-containment
tests. -/
theorem planeLoop_eq_some (corners : List (V3 K)) (planes : List (V4 K)) (fi : Bool)
    (h : ∀ pl ∈ planes, planeCount corners pl ≠ 0) :
    planeLoop corners planes fi =
      some (fi && planes.all
        (fun pl => decide (planeCount corners pl = corners.length))) := by
  induction planes generalizing fi with
  | nil => simp [planeLoop]
  | cons pl rest ih =>
    have h0 : planeCount corners pl ≠ 0 := h pl (List.mem_cons_self _ _)
    simp only [planeLoop, if_neg h0]
    rw [ih _ (fun q hq => h q (List.mem_cons_of_mem _ hq))]
    simp [Bool.and_assoc]

/-- Claim C2: `intersects` returns 0 whenever some frustum plane has no
box corner satisfying `dot(normal, corner) + d >= 0`, and returns 2
whenever every plane has all 8 corners satisfying it. -/
theorem claim_C2_plane_stage (box : Aabb K) (fr : Frustum K) :
    ((∃ pl ∈ fr.planes, planeCount box.getCorners pl = 0) →
      box.intersects fr = 0) ∧
    ((∀ pl ∈ fr.planes, planeCount box.getCorners pl = 8) →
      box.intersects fr = 2) := by
  constructor
  · intro h
    unfold Aabb.intersects
    rw [planeLoop_eq_none _ _ _ h]
  · intro h
    have hne : ∀ pl ∈ fr.planes, planeCount box.getCorners pl ≠ 0 := by
      intro pl hpl
      rw [h pl hpl]
      norm_num
    have hlen : (box.getCorners).length = 8 := rfl
    unfold Aabb.intersects
    rw [planeLoop_eq_some _ _ _ hne]
    have hall : fr.planes.all
        (fun pl => decide (planeCount box.getCorners pl = box.getCorners.length)) = true := by
      rw [List.all_eq_true]
      intro pl hpl
      rw [decide_eq_true_eq, hlen]
      exact h pl hpl
    rw [hall]
    rfl

/-- Witness for claim C2 over `ℚ`: the unit box against a single plane
rejecting all corners (result 0) and against six planes each accepting
all 8 corners (result 2). -/
theorem claim_C2_plane_stage_witness :
    (aabbMk (⟨0, 0, 0⟩ : V3 ℚ) ⟨1, 1, 1⟩).intersects ⟨[], [⟨0, 0, 1, -5⟩]⟩ = 0 ∧
    (aabbMk (⟨0, 0, 0⟩ : V3 ℚ) ⟨1, 1, 1⟩).intersects
      ⟨[], [⟨0, 0, 1, 0⟩, ⟨0, 0, 1, 0⟩, ⟨0, 0, 1, 0⟩,
            ⟨0, 0, 1, 0⟩, ⟨0, 0, 1, 0⟩, ⟨0, 0, 1, 0⟩]⟩ = 2 :=
  ⟨(claim_C2_plane_stage (aabbMk ⟨0, 0, 0⟩ ⟨1, 1, 1⟩) ⟨[], [⟨0, 0, 1, -5⟩]⟩).1
      (of_decide_eq_true (by with_unfolding_all rfl)),
   (claim_C2_plane_stage (aabbMk ⟨0, 0, 0⟩ ⟨1, 1, 1⟩)
      ⟨[], [⟨0, 0, 1, 0⟩, ⟨0, 0, 1, 0⟩, ⟨0, 0, 1, 0⟩,
            ⟨0, 0, 1, 0⟩, ⟨0, 0, 1, 0⟩, ⟨0, 0, 1, 0⟩]⟩).2
      (of_decide_eq_true (by with_unfolding_all rfl))⟩

/-- A `foldl` of `Math.min` stays above `c` exactly when the seed and
every folded value do. -/
theorem foldl_jsMin_gt {α : Type*} (g : α → K) (l : List α) (s c : K) :
    c < l.foldl (fun acc p => jsMin acc (g p)) s ↔ c < s ∧ ∀ p ∈ l, c < g p := by
  induction l generalizing s with
  | nil => simp
  | cons x xs ih =>
    rw [List.foldl_cons, ih, jsMin_eq_min, lt_min_iff, List.forall_mem_cons]
    tauto

/-- A `foldl` of `Math.max` stays below `c` exactly when the seed and
every folded value do. -/
theorem foldl_jsMax_lt {α : Type*} (g : α → K) (l : List α) (s c : K) :
    l.foldl (fun acc p => jsMax acc (g p)) s < c ↔ s < c ∧ ∀ p ∈ l, g p < c := by
  induction l generalizing s with
  | nil => simp
  | cons x xs ih =>
    rw [List.foldl_cons, ih, jsMax_eq_max, max_lt_iff, List.forall_mem_cons]
    tauto

/-- A fold accumulating a min/max pair splits into the two scalar folds. -/
theorem foldl_minmax_pair {α : Type*} (g : α → K) (l : List α) (a b : K) :
    l.foldl (fun acc p => (jsMin acc.1 (g p), jsMax acc.2 (g p))) (a, b) =
      (l.foldl (fun acc p => jsMin acc (g p)) a,
       l.foldl (fun acc p => jsMax acc (g p)) b) := by
  induction l generalizing a b with
  | nil => rfl
  | cons x xs ih =>
    rw [List.foldl_cons, List.foldl_cons, List.foldl_cons]
    exact ih _ _

/-- The min/max pair computed by the axis loop of `Aabb.intersects`. -/
theorem axisProj_eq (box : Aabb K) (pts : List (V4 K)) (axis : Fin 3) :
    axisProj box pts axis =
      (pts.foldl (fun acc p => jsMin acc (p.nth axis - box.min.nth axis)) jsMaxValue,
       pts.foldl (fun acc p => jsMax acc (p.nth axis - box.min.nth axis)) (-jsMaxValue)) := by
  unfold axisProj
  exact foldl_minmax_pair _ _ _ _

/-- `Number.MAX_VALUE` is positive. -/
theorem jsMaxValue_pos : (0 : K) < jsMaxValue := by
  unfold jsMaxValue
  have h1 : (1 : K) < 2 ^ 53 := by norm_num
  have h2 : (0 : K) < 2 ^ 971 := by positivity
  nlinarith

/-- Anything at most 1 is below `Number.MAX_VALUE`. -/
theorem lt_jsMaxValue_of_le_one {x : K} (h : x ≤ 1) : x < jsMaxValue := by
  refine lt_of_le_of_lt h ?_
  unfold jsMaxValue
  have h1 : (2 : K) ≤ 2 ^ 53 := by norm_num
  have h2 : (1 : K) ≤ 2 ^ 971 := one_le_pow₀ (by norm_num)
  nlinarith

/-- The per-axis early-return test of `Aabb.intersects` agrees with the
spec-side separation predicate, provided the box's span on the axis is
below `Number.MAX_VALUE` (so that the loop seed cannot mask the
projected minimum). -/
theorem axisSeparated_iff (box : Aabb K) (pts : List (V4 K)) (axis : Fin 3)
    (hspan : box.max.nth axis - box.min.nth axis < jsMaxValue) :
    axisSeparated box pts axis = true ↔ specAxisSeparated box pts axis := by
  unfold axisSeparated specAxisSeparated
  rw [axisProj_eq]
  simp only [decide_eq_true_eq]
  rw [foldl_jsMax_lt, foldl_jsMin_gt]
  constructor
  · rintro (⟨h1, h2⟩ | ⟨h1, h2⟩)
    · exact Or.inl h2
    · exact Or.inr h2
  · rintro (h | h)
    · exact Or.inl ⟨neg_lt_zero.mpr jsMaxValue_pos, h⟩
    · exact Or.inr ⟨hspan, h⟩

/-- Claim C3: when the plane stage decides neither 0 nor 2, `intersects`
returns 0 exactly when some world axis separates the projected frustum
corners from `[0, max - min]`, and 1 otherwise. -/
theorem claim_C3_axis_stage (box : Aabb K) (fr : Frustum K)
    (hno0 : ∀ pl ∈ fr.planes, planeCount box.getCorners pl ≠ 0)
    (hnot8 : ∃ pl ∈ fr.planes, planeCount box.getCorners pl ≠ 8)
    (_hlen : fr.points.length = 8)
    (hspan : ∀ axis : Fin 3, box.max.nth axis - box.min.nth axis < jsMaxValue) :
    ((∃ axis : Fin 3, specAxisSeparated box fr.points axis) →
      box.intersects fr = 0) ∧
    ((∀ axis : Fin 3, ¬ specAxisSeparated box fr.points axis) →
      box.intersects fr = 1) := by
  have hloop : planeLoop box.getCorners fr.planes true = some false := by
    rw [planeLoop_eq_some _ _ _ hno0]
    rcases hnot8 with ⟨pl, hpl, hne⟩
    have hall : fr.planes.all
        (fun q => decide (planeCount box.getCorners q = box.getCorners.length)) = false := by
      rw [List.all_eq_false]
      refine ⟨pl, hpl, ?_⟩
      simpa using hne
    rw [hall]
    simp
  constructor
  · rintro ⟨axis, hsep⟩
    have hsep' : axisSeparated box fr.points axis = true :=
      (axisSeparated_iff _ _ _ (hspan axis)).mpr hsep
    unfold Aabb.intersects
    rw [hloop]
    by_cases h0 : axisSeparated box fr.points 0 = true
    · simp [h0]
    by_cases h1 : axisSeparated box fr.points 1 = true
    · simp [h0, h1]
    by_cases h2 : axisSeparated box fr.points 2 = true
    · simp [h0, h1, h2]
    · exfalso
      fin_cases axis
      · exact h0 hsep'
      · exact h1 hsep'
      · exact h2 hsep'
  · intro hall
    have hax : ∀ axis : Fin 3, axisSeparated box fr.points axis = false := by
      intro axis
      rw [Bool.eq_false_iff]
      intro hc
      exact hall axis ((axisSeparated_iff _ _ _ (hspan axis)).mp hc)
    unfold Aabb.intersects
    rw [hloop]
    simp [hax 0, hax 1, hax 2]

/-- Witness for claim C3 over `ℚ`: unit box, two planes with corner
counts 8 and 4 (plane stage decides neither 0 nor 2), and 8 frustum
points far beyond the box on every axis, so the axis stage separates
and the result is 0. -/
theorem claim_C3_axis_stage_witness :
    (aabbMk (⟨0, 0, 0⟩ : V3 ℚ) ⟨1, 1, 1⟩).intersects
      ⟨[⟨5, 5, 5, 1⟩, ⟨5, 5, 5, 1⟩, ⟨5, 5, 5, 1⟩, ⟨5, 5, 5, 1⟩,
        ⟨5, 5, 5, 1⟩, ⟨5, 5, 5, 1⟩, ⟨5, 5, 5, 1⟩, ⟨5, 5, 5, 1⟩],
       [⟨0, 0, 1, 0⟩, ⟨1, 0, 0, -(1/2)⟩]⟩ = 0 := by
  refine (claim_C3_axis_stage (aabbMk ⟨0, 0, 0⟩ ⟨1, 1, 1⟩)
      ⟨[⟨5, 5, 5, 1⟩, ⟨5, 5, 5, 1⟩, ⟨5, 5, 5, 1⟩, ⟨5, 5, 5, 1⟩,
        ⟨5, 5, 5, 1⟩, ⟨5, 5, 5, 1⟩, ⟨5, 5, 5, 1⟩, ⟨5, 5, 5, 1⟩],
       [⟨0, 0, 1, 0⟩, ⟨1, 0, 0, -(1/2)⟩]⟩
      (of_decide_eq_true (by with_unfolding_all rfl))
      (of_decide_eq_true (by with_unfolding_all rfl))
      rfl
      ?_).1
    (of_decide_eq_true (by with_unfolding_all rfl))
  intro axis
  fin_cases axis <;>
    exact lt_jsMaxValue_of_le_one (of_decide_eq_true (by with_unfolding_all rfl))

/-- Claim C9: the four children `quadrant(0..3)` exactly partition the
parent's (x, y) extent — the union of the child rectangles equals the
parent rectangle, two distinct children overlap only on the shared
center lines, and every child keeps the parent's z-range. -/
theorem claim_C9_quadrant_partition (mn mx : V3 K)
    (hx : mn.x ≤ mx.x) (hy : mn.y ≤ mx.y) :
    (∀ px py, memRectXY (aabbMk mn mx) px py ↔
      ∃ i, i < 4 ∧ memRectXY ((aabbMk mn mx).quadrant i) px py) ∧
    (∀ i j, i < 4 → j < 4 → i ≠ j → ∀ px py,
      memRectXY ((aabbMk mn mx).quadrant i) px py →
      memRectXY ((aabbMk mn mx).quadrant j) px py →
      px = (aabbMk mn mx).center.x ∨ py = (aabbMk mn mx).center.y) ∧
    (∀ i, i < 4 → ((aabbMk mn mx).quadrant i).min.z = mn.z ∧
      ((aabbMk mn mx).quadrant i).max.z = mx.z) := by
  refine ⟨?_, ?_, ?_⟩
  · intro px py
    constructor
    · intro h
      simp only [memRectXY, aabbMk] at h
      obtain ⟨h1, h2, h3, h4⟩ := h
      by_cases hpx : px ≤ (mn.x + mx.x) * (1 / 2)
      · by_cases hpy : py ≤ (mn.y + mx.y) * (1 / 2)
        · refine ⟨0, by norm_num, ?_⟩
          simp only [memRectXY, Aabb.quadrant, aabbMk, vec3scale, vec3add]
          norm_num
          refine ⟨h1, ?_, h3, ?_⟩ <;> linarith
        · refine ⟨2, by norm_num, ?_⟩
          simp only [memRectXY, Aabb.quadrant, aabbMk, vec3scale, vec3add]
          norm_num
          refine ⟨h1, ?_, ?_, h4⟩ <;> linarith
      · by_cases hpy : py ≤ (mn.y + mx.y) * (1 / 2)
        · refine ⟨1, by norm_num, ?_⟩
          simp only [memRectXY, Aabb.quadrant, aabbMk, vec3scale, vec3add]
          norm_num
          refine ⟨?_, h2, h3, ?_⟩ <;> linarith
        · refine ⟨3, by norm_num, ?_⟩
          simp only [memRectXY, Aabb.quadrant, aabbMk, vec3scale, vec3add]
          norm_num
          refine ⟨?_, h2, ?_, h4⟩ <;> linarith
    · rintro ⟨i, hi, h⟩
      interval_cases i <;>
        simp only [memRectXY, Aabb.quadrant, aabbMk, vec3scale, vec3add] at h ⊢ <;>
        norm_num at h ⊢ <;>
        obtain ⟨a1, a2, a3, a4⟩ := h <;>
        refine ⟨?_, ?_, ?_, ?_⟩ <;> linarith
  · intro i j hi hj hne px py h1 h2
    interval_cases i <;> interval_cases j <;>
      first
        | exact absurd rfl hne
        | (simp only [memRectXY, Aabb.quadrant, aabbMk, vec3scale, vec3add] at h1 h2 ⊢
           norm_num at h1 h2 ⊢
           obtain ⟨a1, a2, a3, a4⟩ := h1
           obtain ⟨b1, b2, b3, b4⟩ := h2
           first | (left; linarith) | (right; linarith))
  · intro i hi
    interval_cases i <;>
      simp [Aabb.quadrant, aabbMk, vec3scale, vec3add]

/-- Witness for claim C9 at a concrete box over `ℚ`. -/
theorem claim_C9_quadrant_partition_witness :
    (∀ px py, memRectXY (aabbMk (⟨0, 0, 0⟩ : V3 ℚ) ⟨2, 2, 2⟩) px py ↔
      ∃ i, i < 4 ∧ memRectXY ((aabbMk (⟨0, 0, 0⟩ : V3 ℚ) ⟨2, 2, 2⟩).quadrant i) px py) ∧
    (∀ i j, i < 4 → j < 4 → i ≠ j → ∀ px py,
      memRectXY ((aabbMk (⟨0, 0, 0⟩ : V3 ℚ) ⟨2, 2, 2⟩).quadrant i) px py →
      memRectXY ((aabbMk (⟨0, 0, 0⟩ : V3 ℚ) ⟨2, 2, 2⟩).quadrant j) px py →
      px = (aabbMk (⟨0, 0, 0⟩ : V3 ℚ) ⟨2, 2, 2⟩).center.x ∨
        py = (aabbMk (⟨0, 0, 0⟩ : V3 ℚ) ⟨2, 2, 2⟩).center.y) ∧
    (∀ i, i < 4 → ((aabbMk (⟨0, 0, 0⟩ : V3 ℚ) ⟨2, 2, 2⟩).quadrant i).min.z = 0 ∧
      ((aabbMk (⟨0, 0, 0⟩ : V3 ℚ) ⟨2, 2, 2⟩).quadrant i).max.z = 2) :=
  claim_C9_quadrant_partition ⟨0, 0, 0⟩ ⟨2, 2, 2⟩ (by decide) (by decide)

/-- Once the degenerate guard is bypassed, `closestPointOnSphere` is the
three-way branch on the discriminant and the nearer root. -/
theorem closestPointOnSphere_eval (sqrt : K → K) (ray : Ray K) (center : V3 K)
    (r : K) (out : V3 K)
    (hg : (vec3equals ray.pos center || decide (r = 0)) = false) :
    ray.closestPointOnSphere sqrt center r out =
      if sphereDisc ray center r < 0 then
        (false, specMissOutput sqrt ray center r)
      else if sphereRoot sqrt ray center r < 0 then
        (false, vec3scale (vec3sub ray.pos center)
          (r / vec3length sqrt (vec3sub ray.pos center)))
      else
        (true, vec3sub (vec3add ray.pos
          (vec3scale ray.dir (sphereRoot sqrt ray center r))) center) := by
  unfold Ray.closestPointOnSphere specMissOutput sphereRoot sphereDisc
  rw [hg]
  rfl

/-- Claim C6: for a non-degenerate call whose discriminant is
nonnegative, the nearer root `t` decides the outcome: `t < 0` returns
false with `centerToP` rescaled to length `r`, `t >= 0` returns true
with the center-relative intersection point `pos + t*dir - center`; and
the call returns true exactly when `d >= 0` and `t >= 0`. -/
theorem claim_C6_quadratic_branch (sqrt : K → K) (ray : Ray K) (center : V3 K)
    (r : K) (out : V3 K)
    (_hdir : ray.dir ≠ ⟨0, 0, 0⟩)
    (hguard : vec3equals ray.pos center = false) (hr : 0 < r) :
    (0 ≤ sphereDisc ray center r → sphereRoot sqrt ray center r < 0 →
      ray.closestPointOnSphere sqrt center r out =
        (false, vec3scale (vec3sub ray.pos center)
          (r / vec3length sqrt (vec3sub ray.pos center)))) ∧
    (0 ≤ sphereDisc ray center r → 0 ≤ sphereRoot sqrt ray center r →
      ray.closestPointOnSphere sqrt center r out =
        (true, vec3sub (vec3add ray.pos
          (vec3scale ray.dir (sphereRoot sqrt ray center r))) center)) ∧
    ((ray.closestPointOnSphere sqrt center r out).1 = true ↔
      (0 ≤ sphereDisc ray center r ∧ 0 ≤ sphereRoot sqrt ray center r)) := by
  have hg : (vec3equals ray.pos center || decide (r = 0)) = false := by
    rw [hguard, decide_eq_false hr.ne']
    rfl
  refine ⟨?_, ?_, ?_⟩
  · intro hdisc ht
    rw [closestPointOnSphere_eval sqrt ray center r out hg,
      if_neg (not_lt.mpr hdisc), if_pos ht]
  · intro hdisc ht
    rw [closestPointOnSphere_eval sqrt ray center r out hg,
      if_neg (not_lt.mpr hdisc), if_neg (not_lt.mpr ht)]
  · rw [closestPointOnSphere_eval sqrt ray center r out hg]
    constructor
    · intro h
      by_cases hdisc : sphereDisc ray center r < 0
      · rw [if_pos hdisc] at h
        simp at h
      · rw [if_neg hdisc] at h
        by_cases ht : sphereRoot sqrt ray center r < 0
        · rw [if_pos ht] at h
          simp at h
        · exact ⟨not_lt.mp hdisc, not_lt.mp ht⟩
    · rintro ⟨hdisc, ht⟩
      rw [if_neg (not_lt.mpr hdisc), if_neg (not_lt.mpr ht)]

/-- Witness for claim C6 over `ℚ` at a ray pointing at the sphere
(`pos = (2,0,0)`, `dir = (-1,0,0)`, unit sphere at the origin,
discriminant 4, root 1), with a square-root function that is exact at
the needed point. -/
theorem claim_C6_quadratic_branch_witness :
    (0 ≤ sphereDisc (⟨⟨2, 0, 0⟩, ⟨-1, 0, 0⟩⟩ : Ray ℚ) ⟨0, 0, 0⟩ 1 →
      sphereRoot (fun x => if x = 4 then 2 else 0)
          (⟨⟨2, 0, 0⟩, ⟨-1, 0, 0⟩⟩ : Ray ℚ) ⟨0, 0, 0⟩ 1 < 0 →
      Ray.closestPointOnSphere (⟨⟨2, 0, 0⟩, ⟨-1, 0, 0⟩⟩ : Ray ℚ)
          (fun x => if x = 4 then 2 else 0) ⟨0, 0, 0⟩ 1 ⟨0, 0, 0⟩ =
        (false, vec3scale (vec3sub (⟨2, 0, 0⟩ : V3 ℚ) ⟨0, 0, 0⟩)
          (1 / vec3length (fun x => if x = 4 then 2 else 0)
            (vec3sub (⟨2, 0, 0⟩ : V3 ℚ) ⟨0, 0, 0⟩)))) ∧
    (0 ≤ sphereDisc (⟨⟨2, 0, 0⟩, ⟨-1, 0, 0⟩⟩ : Ray ℚ) ⟨0, 0, 0⟩ 1 →
      0 ≤ sphereRoot (fun x => if x = 4 then 2 else 0)
          (⟨⟨2, 0, 0⟩, ⟨-1, 0, 0⟩⟩ : Ray ℚ) ⟨0, 0, 0⟩ 1 →
      Ray.closestPointOnSphere (⟨⟨2, 0, 0⟩, ⟨-1, 0, 0⟩⟩ : Ray ℚ)
          (fun x => if x = 4 then 2 else 0) ⟨0, 0, 0⟩ 1 ⟨0, 0, 0⟩ =
        (true, vec3sub (vec3add (⟨2, 0, 0⟩ : V3 ℚ)
          (vec3scale ⟨-1, 0, 0⟩ (sphereRoot (fun x => if x = 4 then 2 else 0)
            (⟨⟨2, 0, 0⟩, ⟨-1, 0, 0⟩⟩ : Ray ℚ) ⟨0, 0, 0⟩ 1))) ⟨0, 0, 0⟩)) ∧
    ((Ray.closestPointOnSphere (⟨⟨2, 0, 0⟩, ⟨-1, 0, 0⟩⟩ : Ray ℚ)
        (fun x => if x = 4 then 2 else 0) ⟨0, 0, 0⟩ 1 ⟨0, 0, 0⟩).1 = true ↔
      (0 ≤ sphereDisc (⟨⟨2, 0, 0⟩, ⟨-1, 0, 0⟩⟩ : Ray ℚ) ⟨0, 0, 0⟩ 1 ∧
        0 ≤ sphereRoot (fun x => if x = 4 then 2 else 0)
          (⟨⟨2, 0, 0⟩, ⟨-1, 0, 0⟩⟩ : Ray ℚ) ⟨0, 0, 0⟩ 1)) :=
  claim_C6_quadratic_branch (fun x => if x = 4 then 2 else 0)
    ⟨⟨2, 0, 0⟩, ⟨-1, 0, 0⟩⟩ ⟨0, 0, 0⟩ 1 ⟨0, 0, 0⟩
    (of_decide_eq_true (by with_unfolding_all rfl))
    (of_decide_eq_true (by with_unfolding_all rfl))
    (of_decide_eq_true (by with_unfolding_all rfl))

/-- Claim C7: for a non-degenerate call whose discriminant is negative,
the call returns false and writes `pointOnRay + v - center`, with
`t = max(dot(-centerToP, dir), 0)`, `pointOnRay = pos + t*dir` and
`v = (center - pointOnRay)` scaled by `1 - r/|center - pointOnRay|`. -/
theorem claim_C7_miss_branch (sqrt : K → K) (ray : Ray K) (center : V3 K)
    (r : K) (out : V3 K)
    (_hdir : ray.dir ≠ ⟨0, 0, 0⟩)
    (hguard : vec3equals ray.pos center = false) (hr : 0 < r)
    (hd : sphereDisc ray center r < 0) :
    ray.closestPointOnSphere sqrt center r out =
      (false, specMissOutput sqrt ray center r) := by
  have hg : (vec3equals ray.pos center || decide (r = 0)) = false := by
    rw [hguard, decide_eq_false hr.ne']
    rfl
  rw [closestPointOnSphere_eval sqrt ray center r out hg, if_pos hd]

/-- Witness for claim C7 over `ℚ` at a ray missing the unit sphere
(`pos = (2,0,0)`, `dir = (0,1,0)`, discriminant -12). -/
theorem claim_C7_miss_branch_witness :
    Ray.closestPointOnSphere (⟨⟨2, 0, 0⟩, ⟨0, 1, 0⟩⟩ : Ray ℚ)
        (fun x => if x = 4 then 2 else 0) ⟨0, 0, 0⟩ 1 ⟨9, 9, 9⟩ =
      (false, specMissOutput (fun x => if x = 4 then 2 else 0)
        (⟨⟨2, 0, 0⟩, ⟨0, 1, 0⟩⟩ : Ray ℚ) ⟨0, 0, 0⟩ 1) :=
  claim_C7_miss_branch (fun x => if x = 4 then 2 else 0)
    ⟨⟨2, 0, 0⟩, ⟨0, 1, 0⟩⟩ ⟨0, 0, 0⟩ 1 ⟨9, 9, 9⟩
    (of_decide_eq_true (by with_unfolding_all rfl))
    (of_decide_eq_true (by with_unfolding_all rfl))
    (of_decide_eq_true (by with_unfolding_all rfl))
    (of_decide_eq_true (by with_unfolding_all rfl))

/-- `dot(v, v)` is a sum of squares, hence nonnegative. -/
theorem vec3dot_self_nonneg (v : V3 K) : 0 ≤ vec3dot v v := by
  unfold vec3dot
  nlinarith [mul_self_nonneg v.x, mul_self_nonneg v.y, mul_self_nonneg v.z]

/-- `dot(v, v)` is positive for a nonzero vector. -/
theorem vec3dot_self_pos (v : V3 K) (h : v ≠ (⟨0, 0, 0⟩ : V3 K)) :
    0 < vec3dot v v := by
  rcases lt_or_eq_of_le (vec3dot_self_nonneg v) with hlt | heq
  · exact hlt
  · exfalso
    obtain ⟨x, y, z⟩ := v
    simp only [vec3dot] at heq
    have hx : x * x = 0 := by
      nlinarith [mul_self_nonneg x, mul_self_nonneg y, mul_self_nonneg z]
    have hy : y * y = 0 := by
      nlinarith [mul_self_nonneg x, mul_self_nonneg y, mul_self_nonneg z]
    have hz : z * z = 0 := by
      nlinarith [mul_self_nonneg x, mul_self_nonneg y, mul_self_nonneg z]
    have hx0 : x = 0 := mul_self_eq_zero.mp hx
    have hy0 : y = 0 := mul_self_eq_zero.mp hy
    have hz0 : z = 0 := mul_self_eq_zero.mp hz
    subst hx0
    subst hy0
    subst hz0
    exact h rfl

/-- `vec3.sub` vanishes exactly on equal vectors. -/
theorem vec3sub_eq_zero_iff (a b : V3 K) :
    vec3sub a b = (⟨0, 0, 0⟩ : V3 K) ↔ a = b := by
  obtain ⟨ax, ay, az⟩ := a
  obtain ⟨bx, byy, bz⟩ := b
  simp [vec3sub, V3.mk.injEq, sub_eq_zero]

/-- gl-matrix approximate equality holds reflexively. -/
theorem vec3equals_self (v : V3 K) : vec3equals v v = true := by
  unfold vec3equals
  have h : ∀ x : K, jsAbs (x - x) ≤ glEPSILON * jsMax 1 (jsMax (jsAbs x) (jsAbs x)) := by
    intro x
    have h0 : jsAbs (x - x) = 0 := by simp [jsAbs]
    have h1 : (1 : K) ≤ jsMax 1 (jsMax (jsAbs x) (jsAbs x)) := by
      unfold jsMax jsAbs
      split_ifs <;> linarith
    have heps : (0 : K) < glEPSILON := by
      unfold glEPSILON
      norm_num
    rw [h0]
    nlinarith
  rw [decide_eq_true (h v.x), decide_eq_true (h v.y), decide_eq_true (h v.z)]
  rfl

/-- `|s • v|² = s² * |v|²`. -/
theorem vec3dot_scale_self (v : V3 K) (s : K) :
    vec3dot (vec3scale v s) (vec3scale v s) = s ^ 2 * vec3dot v v := by
  simp only [vec3dot, vec3scale]
  ring

/-- `(q + k*(c - q)) - c = (k - 1)*(c - q)`: the miss-branch output is a
rescaling of the vector from the closest ray point to the center. -/
theorem miss_output_scale (q c : V3 K) (k : K) :
    vec3sub (vec3add q (vec3scale (vec3sub c q) k)) c =
      vec3scale (vec3sub c q) (k - 1) := by
  simp only [vec3sub, vec3add, vec3scale, V3.mk.injEq]
  refine ⟨by ring, by ring, by ring⟩

/-- `(p + t*d) - c = (p - c) + t*d`. -/
theorem hit_output_add (p c dv : V3 K) (t : K) :
    vec3sub (vec3add p (vec3scale dv t)) c =
      vec3add (vec3sub p c) (vec3scale dv t) := by
  simp only [vec3sub, vec3add, vec3scale, V3.mk.injEq]
  refine ⟨by ring, by ring, by ring⟩

/-- Expansion of `|u + t*d|²`. -/
theorem dot_add_scale (u dv : V3 K) (t : K) :
    vec3dot (vec3add u (vec3scale dv t)) (vec3add u (vec3scale dv t)) =
      vec3dot u u + t * (2 * vec3dot u dv) + t ^ 2 * vec3dot dv dv := by
  simp only [vec3dot, vec3add, vec3scale]
  ring

/-- Expansion of `|c - (p + t*d)|²` in terms of `p - c`. -/
theorem dot_sub_add_scale (c p dv : V3 K) (t : K) :
    vec3dot (vec3sub c (vec3add p (vec3scale dv t)))
        (vec3sub c (vec3add p (vec3scale dv t))) =
      vec3dot (vec3sub p c) (vec3sub p c) +
        t * (2 * vec3dot (vec3sub p c) dv) + t ^ 2 * vec3dot dv dv := by
  simp only [vec3dot, vec3sub, vec3add, vec3scale]
  ring

/-- A quadratic with positive leading coefficient and negative
discriminant is positive everywhere. -/
theorem quad_pos {a b c : K} (ha : 0 < a) (hd : b ^ 2 - 4 * a * c < 0) (t : K) :
    0 < c + t * b + t ^ 2 * a := by
  nlinarith [sq_nonneg (2 * a * t + b)]

/-- Evaluating the quadratic at the root `(-b - s) / (2a)` gives zero
when `s` squares to the discriminant. -/
theorem quadratic_root_eval {a b c s : K} (ha : a ≠ 0)
    (hs : s ^ 2 = b ^ 2 - 4 * a * c) :
    a * ((-b - s) / (2 * a)) ^ 2 + b * ((-b - s) / (2 * a)) + c = 0 := by
  have h2a : (2 : K) * a ≠ 0 := mul_ne_zero two_ne_zero ha
  field_simp
  linear_combination 2 * a ^ 2 * hs

/-- `vec3.length` with the real square root is the norm. -/
theorem vec3length_real_sqrt (v : V3 ℝ) :
    vec3length Real.sqrt v = Real.sqrt (vec3dot v v) := rfl

/-- A vector whose squared length is `r²` has length `r`. -/
theorem vec3length_eq_of_dot_eq_sq (v : V3 ℝ) (r : ℝ) (hr : 0 ≤ r)
    (h : vec3dot v v = r ^ 2) : vec3length Real.sqrt v = r := by
  rw [vec3length_real_sqrt, h, Real.sqrt_sq hr]

/-- Claim C10: for every non-degenerate call, in exact real arithmetic
the vector written to `out` has length exactly `r` on every branch
(intersection, negative-discriminant miss, and behind-origin), so the
output always lies on the sphere in center-relative coordinates. -/
theorem claim_C10_output_on_sphere (ray : Ray ℝ) (center : V3 ℝ) (r : ℝ)
    (out : V3 ℝ)
    (hdir : ray.dir ≠ ⟨0, 0, 0⟩)
    (hguard : vec3equals ray.pos center = false) (hr : 0 < r) :
    vec3length Real.sqrt ((ray.closestPointOnSphere Real.sqrt center r out).2) = r := by
  have hg : (vec3equals ray.pos center || decide (r = 0)) = false := by
    rw [hguard, decide_eq_false hr.ne']
    rfl
  have ha : 0 < vec3dot ray.dir ray.dir := vec3dot_self_pos _ hdir
  have hpc : ray.pos ≠ center := by
    intro he
    rw [he, vec3equals_self] at hguard
    simp at hguard
  have hcp : vec3sub ray.pos center ≠ (⟨0, 0, 0⟩ : V3 ℝ) := by
    intro hz
    exact hpc ((vec3sub_eq_zero_iff _ _).mp hz)
  have hcpd : 0 < vec3dot (vec3sub ray.pos center) (vec3sub ray.pos center) :=
    vec3dot_self_pos _ hcp
  rw [closestPointOnSphere_eval Real.sqrt ray center r out hg]
  by_cases hd : sphereDisc ray center r < 0
  · rw [if_pos hd]
    show vec3length Real.sqrt (specMissOutput Real.sqrt ray center r) = r
    simp only [specMissOutput]
    generalize jsMax (vec3dot (vec3scale (vec3sub ray.pos center) (-1)) ray.dir) 0 = t
    rw [miss_output_scale]
    apply vec3length_eq_of_dot_eq_sq _ _ hr.le
    rw [vec3dot_scale_self]
    have hD : 0 < vec3dot (vec3sub center (vec3add ray.pos (vec3scale ray.dir t)))
        (vec3sub center (vec3add ray.pos (vec3scale ray.dir t))) := by
      rw [dot_sub_add_scale]
      refine quad_pos ha ?_ t
      have hdisc : sphereDisc ray center r =
          (2 * vec3dot (vec3sub ray.pos center) ray.dir) ^ 2 -
            4 * vec3dot ray.dir ray.dir *
              (vec3dot (vec3sub ray.pos center) (vec3sub ray.pos center) - r * r) := by
        unfold sphereDisc
        ring
      rw [hdisc] at hd
      nlinarith [mul_pos ha (mul_pos hr hr)]
    have hsq : Real.sqrt (vec3dot (vec3sub center (vec3add ray.pos (vec3scale ray.dir t)))
          (vec3sub center (vec3add ray.pos (vec3scale ray.dir t)))) ^ 2 =
        vec3dot (vec3sub center (vec3add ray.pos (vec3scale ray.dir t)))
          (vec3sub center (vec3add ray.pos (vec3scale ray.dir t))) :=
      Real.sq_sqrt hD.le
    have hspos : 0 < Real.sqrt (vec3dot (vec3sub center (vec3add ray.pos (vec3scale ray.dir t)))
        (vec3sub center (vec3add ray.pos (vec3scale ray.dir t)))) :=
      Real.sqrt_pos.mpr hD
    rw [vec3length_real_sqrt]
    field_simp
  · rw [if_neg hd]
    by_cases ht : sphereRoot Real.sqrt ray center r < 0
    · rw [if_pos ht]
      show vec3length Real.sqrt (vec3scale (vec3sub ray.pos center)
        (r / vec3length Real.sqrt (vec3sub ray.pos center))) = r
      apply vec3length_eq_of_dot_eq_sq _ _ hr.le
      rw [vec3dot_scale_self, vec3length_real_sqrt]
      have hsq : Real.sqrt (vec3dot (vec3sub ray.pos center) (vec3sub ray.pos center)) ^ 2 =
          vec3dot (vec3sub ray.pos center) (vec3sub ray.pos center) :=
        Real.sq_sqrt hcpd.le
      have hspos : 0 < Real.sqrt (vec3dot (vec3sub ray.pos center) (vec3sub ray.pos center)) :=
        Real.sqrt_pos.mpr hcpd
      field_simp
    · rw [if_neg ht]
      show vec3length Real.sqrt (vec3sub (vec3add ray.pos
        (vec3scale ray.dir (sphereRoot Real.sqrt ray center r))) center) = r
      apply vec3length_eq_of_dot_eq_sq _ _ hr.le
      rw [hit_output_add, dot_add_scale]
      have hd0 : 0 ≤ sphereDisc ray center r := not_lt.mp hd
      have hs' : Real.sqrt (sphereDisc ray center r) ^ 2 =
          (2 * vec3dot (vec3sub ray.pos center) ray.dir) ^ 2 -
            4 * vec3dot ray.dir ray.dir *
              (vec3dot (vec3sub ray.pos center) (vec3sub ray.pos center) - r * r) := by
        rw [Real.sq_sqrt hd0]
        unfold sphereDisc
        ring
      have hroot : sphereRoot Real.sqrt ray center r =
          (-(2 * vec3dot (vec3sub ray.pos center) ray.dir) -
            Real.sqrt (sphereDisc ray center r)) / (2 * vec3dot ray.dir ray.dir) := rfl
      have hroot0 : vec3dot ray.dir ray.dir * sphereRoot Real.sqrt ray center r ^ 2 +
          (2 * vec3dot (vec3sub ray.pos center) ray.dir) * sphereRoot Real.sqrt ray center r +
          (vec3dot (vec3sub ray.pos center) (vec3sub ray.pos center) - r * r) = 0 := by
        rw [hroot]
        exact quadratic_root_eval ha.ne' hs'
      linear_combination hroot0

/-- Witness for claim C10 over `ℝ` at a ray hitting the unit sphere. -/
theorem claim_C10_output_on_sphere_witness :
    vec3length Real.sqrt ((Ray.closestPointOnSphere
      (⟨⟨2, 0, 0⟩, ⟨-1, 0, 0⟩⟩ : Ray ℝ) Real.sqrt ⟨0, 0, 0⟩ 1 ⟨0, 0, 0⟩).2) = 1 :=
  claim_C10_output_on_sphere ⟨⟨2, 0, 0⟩, ⟨-1, 0, 0⟩⟩ ⟨0, 0, 0⟩ 1 ⟨0, 0, 0⟩
    (by simp [V3.mk.injEq])
    (by
      unfold vec3equals
      have hx : ¬ (jsAbs ((2 : ℝ) - 0) ≤
          glEPSILON * jsMax 1 (jsMax (jsAbs (2 : ℝ)) (jsAbs (0 : ℝ)))) := by
        norm_num [jsAbs, jsMax, glEPSILON]
      rw [show ((⟨⟨2, 0, 0⟩, ⟨-1, 0, 0⟩⟩ : Ray ℝ).pos) = ⟨2, 0, 0⟩ from rfl]
      rw [show ((⟨2, 0, 0⟩ : V3 ℝ).x) = (2 : ℝ) from rfl]
      rw [decide_eq_false hx]
      rfl)
    (by norm_num)

end Theorems
